import Mathlib

/-! wasm-start: the start-section encoder and the byte splicer.

A shallow embedding of `main.go`.  Bytes are natural numbers below 256, byte
slices are lists.  A Go run-time panic (slice index out of range) is `none`.
The input is a regular file, so `Seek` does not fail, and writes to the output
file succeed; the failures kept are those `main2` can meet on such files: the
input cannot be opened or loaded, the export is missing or has the wrong
signature, the output cannot be created, the input ends before the offset
`io.CopyN` is asked to reach.
-/

namespace WasmStart

/-! ## The start-section encoder -/

/-- Go's `binary.MaxVarintLen32`: the size of both scratch buffers. -/
def MaxVarintLen32 : Nat := 5

/-- Go's `binary.MaxVarintLen64`: a `uint64` needs at most this many groups of
seven bits, so the loop of `PutUvarint` runs at most this many times. -/
def MaxVarintLen64 : Nat := 10

/-- The assignment `buf[i] = b` of Go: it panics when `i` is out of range. -/
def store (buf : List Nat) (i : Nat) (b : Nat) : Option (List Nat) :=
  if i < buf.length then some (buf.set i b) else none

/-- The loop of Go's `binary.PutUvarint`:
`for x >= 0x80 { buf[i] = byte(x) | 0x80; x >>= 7; i++ }; buf[i] = byte(x); return i + 1`.
The first argument bounds the number of iterations. -/
def putUvarintLoop : Nat → List Nat → Nat → Nat → Option (List Nat × Nat)
  | 0, _, _, _ => none
  | fuel + 1, buf, x, i =>
    if x ≥ 0x80 then
      match store buf i ((x % 256) ||| 0x80) with
      | none => none
      | some buf1 => putUvarintLoop fuel buf1 (x >>> 7) (i + 1)
    else
      match store buf i (x % 256) with
      | none => none
      | some buf1 => some (buf1, i + 1)

/-- Go's `binary.PutUvarint(buf, x)` on a `uint64` value `x`: the buffer after
the call and the number of bytes written. -/
def PutUvarint (buf : List Nat) (x : Nat) : Option (List Nat × Nat) :=
  putUvarintLoop MaxVarintLen64 buf x 0

/-- The function `makeStartSection` of `main.go`; `Start` is the numeric value
of the constant `section.Start`, which `byte(...)` turns into the tag byte. -/
def makeStartSection (Start : Nat) (index : Nat) : Option (List Nat) :=
  let indexBuf := List.replicate MaxVarintLen32 0
  match PutUvarint indexBuf (index % 2 ^ 64) with
  | none => none
  | some (indexBuf, indexLen) =>
    let lengthBuf := List.replicate MaxVarintLen32 0
    match PutUvarint lengthBuf (indexLen % 2 ^ 64) with
    | none => none
    | some (lengthBuf, lengthLen) =>
      let buf : List Nat := []
      let buf := buf ++ [Start % 256]
      let buf := buf ++ lengthBuf.take lengthLen
      let buf := buf ++ indexBuf.take indexLen
      some buf

/-! ## Unsigned LEB128, as the specification words it -/

/-- Unsigned LEB128 of the specification: seven payload bits per byte, the
least significant group first, the top bit set on every byte but the last. -/
def uvarint (x : Nat) : List Nat :=
  if x < 128 then [x] else (x % 128 + 128) :: uvarint (x / 128)
decreasing_by omega

/-- Number of groups of seven bits needed for a 32-bit value. -/
def groups7 (i : Nat) : Nat :=
  if i < 2 ^ 7 then 1 else if i < 2 ^ 14 then 2 else if i < 2 ^ 21 then 3
  else if i < 2 ^ 28 then 4 else 5

/-- Unsigned LEB128 decoding of the specification: the value read from the
front of the bytes and the bytes left after it; `none` when the bytes end
before a byte with a clear continuation bit. -/
def readUvarint : List Nat → Option (Nat × List Nat)
  | [] => none
  | b :: rest =>
    if b < 128 then some (b, rest)
    else
      match readUvarint rest with
      | none => none
      | some (v, rest1) => some (b % 128 + 128 * v, rest1)

/-- The decoded view of a section record. -/
structure ParsedSection where
  /-- the section-kind byte -/
  tag : Nat
  /-- the payload length field -/
  payloadLen : Nat
  /-- the unsigned integer decoded from the payload -/
  value : Nat
  /-- payload bytes left after the integer -/
  payloadRest : List Nat
  /-- bytes of the record left after the payload -/
  recordRest : List Nat
deriving DecidableEq, Repr

/-- Reading a record as a section: the tag byte, the payload length, then the
payload decoded as one unsigned LEB128 integer. -/
def parseSection : List Nat → Option ParsedSection
  | [] => none
  | tag :: rest =>
    match readUvarint rest with
    | none => none
    | some (n, body) =>
      if body.length < n then none
      else
        match readUvarint (body.take n) with
        | none => none
        | some (v, left) => some ⟨tag, n, v, left, body.drop n⟩

/-! ## The collaborators of `main2` -/

/-- Modelled from the spec: wag's `wa.FuncType` is declared outside this
repository.  A signature is the list of its parameter types and its result
type (0 when there is no result); the zero value `wa.FuncType{}` is the
niladic, no-result function type. -/
structure FuncType where
  /-- the parameter types -/
  Params : List Nat
  /-- the result type, 0 for none -/
  Result : Nat
deriving DecidableEq, Repr

/-- The zero value `wa.FuncType{}`. -/
def FuncType.zero : FuncType := ⟨[], 0⟩

/-- Modelled from the spec: `sig.Equal(other)`, equality of signatures. -/
def FuncType.Equal (f other : FuncType) : Bool := decide (f = other)

/-- Modelled from the spec: a section descriptor, the byte position of a
section in the file and its byte count. -/
structure ByteRange where
  /-- byte position in the file -/
  Offset : Nat
  /-- byte count -/
  Length : Nat
deriving DecidableEq, Repr

/-- Modelled from the spec: the section table filled by the loader,
`sections.Sections`, indexed by section kind. -/
structure Map where
  /-- the descriptor of each section kind -/
  Sections : Nat → ByteRange

/-- Modelled from the spec: the module view returned by the loader, with its
two queries `StartFunc() (index, defined)` and
`ExportFunc(name) (index, sig, found)`. -/
structure Module where
  /-- the declared start function -/
  StartFunc : Nat × Bool
  /-- export lookup by name -/
  ExportFunc : String → Nat × FuncType × Bool

/-- The errors `main2` can return. -/
inductive Error where
  /-- an error of the operating system or of the loader, passed on as is -/
  | underlying (msg : String)
  /-- `io.EOF`, from `io.CopyN` when the source ends early -/
  | EOF
  /-- `"%s: export function not found: %q"` with its two arguments -/
  | exportNotFound (input set : String)
  /-- `"%s: function has unsuitable type: %s%s"` with its three arguments -/
  | unsuitableType (input set : String) (sig : FuncType)
deriving DecidableEq, Repr

/-- What is written to `flag.CommandLine.Output()`. -/
inductive Diag where
  /-- the text of `flag.Usage` -/
  | usage
  /-- a literal text -/
  | text (s : String)
deriving DecidableEq, Repr

/-- The command line after `flag.Parse()`. -/
structure Flags where
  /-- `-o` -/
  output : String
  /-- `-s` -/
  set : String
  /-- `-u` -/
  unset : Bool
  /-- `-x` -/
  unexport : Bool
  /-- the positional arguments, `flag.Args()` -/
  args : List String
deriving DecidableEq, Repr

/-- The world `main2` runs in: the two section-kind constants, the files that
can be opened with their contents, the loader, and whether a file can be
created.  The output file is a file of its own: writing it does not change
what is read from the input. -/
structure Env where
  /-- the constant `section.Export` -/
  Export : Nat
  /-- the constant `section.Start` -/
  Start : Nat
  /-- `os.Open(input)`: the bytes of the file, or the error -/
  Open : String → Except String (List Nat)
  /-- `compile.LoadInitialSections` with the section mapper installed -/
  LoadInitialSections : List Nat → Except String (Module × Map)
  /-- `os.Create(output)`: `none` on success, or the error -/
  Create : String → Option String

/-- How a run of `main2` ends. -/
inductive Termination where
  /-- `os.Exit(code)` called inside `main2` -/
  | exit (code : Nat)
  /-- `main2` returned this error (`none` is `nil`) -/
  | ret (err : Option Error)
  /-- a run-time panic -/
  | panic
deriving DecidableEq, Repr

/-- Everything a run of `main2` does. -/
structure Outcome where
  /-- how the run ends -/
  term : Termination
  /-- what `fmt.Printf` wrote -/
  stdout : List String
  /-- what was written to `flag.CommandLine.Output()` -/
  diag : List Diag
  /-- the input file was opened -/
  opened : Bool
  /-- the output file was created -/
  created : Bool
  /-- the bytes written to the output file -/
  out : List Nat
deriving DecidableEq, Repr

/-- The exit code of the process: `main` exits with 1 when `main2` returns
an error; a Go panic exits with 2. -/
def Outcome.exitCode (o : Outcome) : Nat :=
  match o.term with
  | .exit code => code
  | .ret none => 0
  | .ret (some _) => 1
  | .panic => 2

/-- An open input file: its bytes and the read position. -/
structure File where
  /-- the bytes of the file -/
  data : List Nat
  /-- the read position -/
  pos : Nat
deriving DecidableEq, Repr

/-- `f.Seek(offset, io.SeekStart)` on a regular file. -/
def File.SeekStart (_f : File) (offset : Nat) : File := ⟨_f.data, offset⟩

/-- `f.Seek(offset, io.SeekCurrent)` on a regular file with a byte count as
offset; seeking past the end is allowed. -/
def File.SeekCurrent (f : File) (offset : Nat) : File := ⟨f.data, f.pos + offset⟩

/-- `io.CopyN(out, in, n)`: the bytes read are written even when the source
ends early, and then the error is `io.EOF`. -/
def CopyN (out : List Nat) (f : File) (n : Nat) : List Nat × File × Option Error :=
  let chunk := (f.data.drop f.pos).take n
  (out ++ chunk, ⟨f.data, f.pos + chunk.length⟩,
    if chunk.length = n then none else some Error.EOF)

/-- `io.Copy(out, in)`: everything from the read position to the end. -/
def Copy (out : List Nat) (f : File) : List Nat × File :=
  let chunk := f.data.drop f.pos
  (out ++ chunk, ⟨f.data, f.pos + chunk.length⟩)

/-! ## `main2` -/

/-- Lines 85-99 of `main2`: the replacement start record `startSection`, left
`nil` without `-s`; with `-s` the export is looked up and its signature
checked, and a failure ends the run. -/
def startSectionOf (env : Env) (m : Module) (input set : String) :
    Except Termination (List Nat) :=
  if set != "" then
    let (index, sig, found) := m.ExportFunc set
    if !found then
      .error (.ret (some (.exportNotFound input set)))
    else if !sig.Equal FuncType.zero then
      .error (.ret (some (.unsuitableType input set sig)))
    else
      match makeStartSection env.Start index with
      | none => .error .panic
      | some buf => .ok buf
  else .ok []

/-- Lines 107-139 of `main2`, the byte splicer: the bytes written to the
output file and the error returned (`none` is `nil`). -/
def splice (env : Env) (sections : Map) (unexport : Bool) (startSection : List Nat)
    (f : File) : List Nat × Option Error :=
  let f := f.SeekStart 0
  let (out, f, err) :=
    if unexport then
      let (out, f, err) := CopyN [] f (sections.Sections env.Export).Offset
      match err with
      | some e => (out, f, some e)
      | none => (out, f.SeekCurrent (sections.Sections env.Export).Length, none)
    else
      CopyN [] f (sections.Sections env.Start).Offset
  match err with
  | some e => (out, some e)
  | none =>
    let f := f.SeekCurrent (sections.Sections env.Start).Length
    let out := out ++ startSection
    let (out, _) := Copy out f
    (out, none)

/-- The function `main2` of `main.go`. -/
def main2 (env : Env) (fl : Flags) : Outcome :=
  let o : Outcome := ⟨.ret none, [], [], false, false, []⟩
  if fl.args.length ≠ 1 then
    { o with term := .exit 2, diag := [Diag.usage] }
  else
  let input := fl.args.headD ""
  if ((fl.output != "") != ((fl.set != "") || fl.unset || fl.unexport))
      || (fl.set != "" && fl.unset) then
    { o with term := .exit 2, diag := [Diag.text "Inconsistent options\n"] }
  else
  match env.Open input with
  | .error e => { o with term := .ret (some (.underlying e)) }
  | .ok data =>
  let o := { o with opened := true }
  match env.LoadInitialSections data with
  | .error e => { o with term := .ret (some (.underlying e)) }
  | .ok (m, sections) =>
  if fl.output == "" then
    let (index, defined) := m.StartFunc
    if defined then
      { o with stdout := [input ++ ": start function index: " ++ toString index ++ "\n"] }
    else
      { o with stdout := [input ++ ": start function not defined\n"] }
  else
  match startSectionOf env m input fl.set with
  | .error t => { o with term := t }
  | .ok startSection =>
  match env.Create fl.output with
  | some e => { o with term := .ret (some (.underlying e)) }
  | none =>
  let o := { o with created := true }
  let (out, err) := splice env sections fl.unexport startSection ⟨data, 0⟩
  { o with term := .ret err, out := out }

/-! ## The claims, as the specification words them -/

/-- The options the specification rejects: the output flag without any of
set, unset, unexport; any of those without the output flag; set with unset. -/
def inconsistent (fl : Flags) : Prop :=
  (fl.output ≠ "" ∧ ¬ (fl.set ≠ "" ∨ fl.unset = true ∨ fl.unexport = true)) ∨
  ((fl.set ≠ "" ∨ fl.unset = true ∨ fl.unexport = true) ∧ fl.output = "") ∨
  (fl.set ≠ "" ∧ fl.unset = true)

instance inconsistentDecidable (fl : Flags) : Decidable (inconsistent fl) := by
  unfold inconsistent
  infer_instance

/-- The bytes of a list whose positions, counted from `k`, are not dropped. -/
def keep (dropped : Nat → Bool) : Nat → List Nat → List Nat
  | _, [] => []
  | k, b :: t => if dropped k then keep dropped (k + 1) t else b :: keep dropped (k + 1) t

/-- The bytes of `input` lying outside both ranges `[a, a + la)` and
`[b, b + lb)`, in their order. -/
def outside (input : List Nat) (a la b lb : Nat) : List Nat :=
  keep (fun k => decide (a ≤ k ∧ k < a + la) || decide (b ≤ k ∧ k < b + lb)) 0 input

/-- The splicing invariant of the specification for one run: the length of
the output is the length of the input, less the lengths of the dropped
sections (Start, and Export when unexporting), plus the length of the
replacement record; and the output with the record taken out is the input
with the dropped section ranges taken out. -/
def splicingInvariant (input : List Nat) (e s : ByteRange) (unexport : Bool)
    (record out : List Nat) : Prop :=
  let el := if unexport then e.Length else 0
  out.length + (s.Length + el) = input.length + record.length ∧
  ∃ pre post, out = pre ++ record ++ post ∧
    pre ++ post = outside input e.Offset el s.Offset s.Length

/-- A world with a ten-byte input whose Export section is bytes 2-3 and whose
Start section is bytes 6-7, two bytes of another section lying between them;
the module exports one niladic function with index 0 under every name. -/
def gapEnv : Env where
  Export := 7
  Start := 8
  Open := fun _ => .ok [0, 1, 2, 3, 4, 5, 6, 7, 8, 9]
  LoadInitialSections := fun _ => .ok (⟨(0, false), fun _ => (0, ⟨[], 0⟩, true)⟩,
    ⟨fun k => if k = 7 then ⟨2, 2⟩ else ⟨6, 2⟩⟩)
  Create := fun _ => none

/-- A world with a ten-byte input whose Export section is bytes 2-5 and whose
Start section is bytes 6-7; the module's start function is 300 and it exports
a niladic function with index 300 under every name. -/
def tightEnv : Env where
  Export := 7
  Start := 8
  Open := fun _ => .ok [0, 1, 2, 3, 4, 5, 6, 7, 8, 9]
  LoadInitialSections := fun _ => .ok (⟨(300, true), fun _ => (300, ⟨[], 0⟩, true)⟩,
    ⟨fun k => if k = 7 then ⟨2, 4⟩ else ⟨6, 2⟩⟩)
  Create := fun _ => none

/-- The world of the worked example: a 64-byte input whose Export section is
at offset 50 with length 10 and whose Start section is absent (offset 60,
length 0); the module exports the niladic function `foo` with index 0 and a
function `bar` with one parameter. -/
def exampleEnv : Env where
  Export := 7
  Start := 8
  Open := fun _ => .ok (List.range 64)
  LoadInitialSections := fun _ => .ok
    (⟨(0, false), fun name =>
        if name = "foo" then (0, ⟨[], 0⟩, true)
        else if name = "bar" then (1, ⟨[127], 0⟩, true) else (0, ⟨[], 0⟩, false)⟩,
      ⟨fun k => if k = 7 then ⟨50, 10⟩ else ⟨60, 0⟩⟩)
  Create := fun _ => none

/-! ## Lemmas about the encoder -/

set_option maxRecDepth 100000 in
theorem byte_or_continuation (x : Nat) : (x % 256) ||| 0x80 = x % 128 + 128 := by
  have h : ∀ y : Fin 256, (y.val ||| 0x80) = y.val % 128 + 128 := by decide
  have := h ⟨x % 256, Nat.mod_lt _ (by decide)⟩
  simp only at this
  omega

theorem uvarint_small (x : Nat) (h : x < 128) : uvarint x = [x] := by
  rw [uvarint]; simp [h]

theorem uvarint_large (x : Nat) (h : ¬ x < 128) :
    uvarint x = (x % 128 + 128) :: uvarint (x / 128) := by
  rw [uvarint]; simp [h]

theorem uvarint_length_pos (x : Nat) : 0 < (uvarint x).length := by
  by_cases h : x < 128
  · simp [uvarint_small x h]
  · simp [uvarint_large x h]

theorem take_set_succ (buf : List Nat) (i b : Nat) (h : i < buf.length) :
    (buf.set i b).take (i + 1) = buf.take i ++ [b] := by
  induction buf generalizing i with
  | nil => simp at h
  | cons a t ih =>
    cases i with
    | zero => simp
    | succ j =>
      simp only [List.length_cons, Nat.add_lt_add_iff_right] at h
      simp [List.set, ih j h]

/-- The loop writes the LEB128 bytes of `x` at position `i` and leaves the
bytes before `i` alone, when the fuel and the buffer are large enough. -/
theorem putUvarintLoop_spec (fuel : Nat) : ∀ (buf : List Nat) (x i : Nat),
    (uvarint x).length ≤ fuel → i + (uvarint x).length ≤ buf.length →
    ∃ buf1, putUvarintLoop fuel buf x i = some (buf1, i + (uvarint x).length) ∧
      buf1.length = buf.length ∧
      buf1.take (i + (uvarint x).length) = buf.take i ++ uvarint x := by
  induction fuel with
  | zero =>
    intro buf x i hf _
    have := uvarint_length_pos x
    omega
  | succ n ih =>
    intro buf x i hf hb
    by_cases hx : x < 128
    · rw [uvarint_small x hx] at hf hb ⊢
      simp only [List.length_singleton] at hf hb ⊢
      have hi : i < buf.length := by omega
      refine ⟨buf.set i (x % 256), ?_, by simp, ?_⟩
      · have hge : ¬ x ≥ 0x80 := by omega
        simp [putUvarintLoop, hge, store, hi]
      · rw [take_set_succ buf i _ hi]
        have : x % 256 = x := by omega
        rw [this]
    · rw [uvarint_large x hx] at hf hb ⊢
      simp only [List.length_cons] at hf hb ⊢
      have hi : i < buf.length := by omega
      have hge : x ≥ 0x80 := by omega
      obtain ⟨buf1, h1, h2, h3⟩ := ih (buf.set i (x % 128 + 128)) (x / 128) (i + 1)
        (by omega) (by simp; omega)
      refine ⟨buf1, ?_, by simpa using h2, ?_⟩
      · have hs : x >>> 7 = x / 128 := by
          rw [Nat.shiftRight_eq_div_pow]
        simp only [putUvarintLoop, hge, if_true, store, hi, byte_or_continuation, hs]
        rw [h1]
        congr 2
        omega
      · have e : i + ((uvarint (x / 128)).length + 1) = i + 1 + (uvarint (x / 128)).length := by
          omega
        rw [e, h3, take_set_succ buf i _ hi]
        simp

theorem uvarint_length (x : Nat) (h : x < 2 ^ 32) : (uvarint x).length = groups7 x := by
  have e32 : (2 : Nat) ^ 32 = 4294967296 := by norm_num
  have e7 : (2 : Nat) ^ 7 = 128 := by norm_num
  have e14 : (2 : Nat) ^ 14 = 16384 := by norm_num
  have e21 : (2 : Nat) ^ 21 = 2097152 := by norm_num
  have e28 : (2 : Nat) ^ 28 = 268435456 := by norm_num
  rw [e32] at h
  unfold groups7
  rw [e7, e14, e21, e28]
  by_cases h1 : x < 128
  · rw [uvarint_small x h1]; simp [h1]
  rw [uvarint_large x h1]
  by_cases h2 : x / 128 < 128
  · rw [uvarint_small _ h2]
    have : x < 16384 := by omega
    simp [h1, this]
  rw [uvarint_large _ h2]
  by_cases h3 : x / 128 / 128 < 128
  · rw [uvarint_small _ h3]
    have a1 : ¬ x < 16384 := by omega
    have a2 : x < 2097152 := by omega
    simp [h1, a1, a2]
  rw [uvarint_large _ h3]
  by_cases h4 : x / 128 / 128 / 128 < 128
  · rw [uvarint_small _ h4]
    have a1 : ¬ x < 16384 := by omega
    have a2 : ¬ x < 2097152 := by omega
    have a3 : x < 268435456 := by omega
    simp [h1, a1, a2, a3]
  rw [uvarint_large _ h4]
  have h5 : x / 128 / 128 / 128 / 128 < 128 := by omega
  rw [uvarint_small _ h5]
  have a1 : ¬ x < 16384 := by omega
  have a2 : ¬ x < 2097152 := by omega
  have a3 : ¬ x < 268435456 := by omega
  simp [h1, a1, a2, a3]

theorem uvarint_length_le (k : Nat) : ∀ x, x < 128 ^ (k + 1) → (uvarint x).length ≤ k + 1 := by
  induction k with
  | zero =>
    intro x hx
    rw [uvarint_small x (by simpa using hx)]
    simp
  | succ n ih =>
    intro x hx
    by_cases h : x < 128
    · rw [uvarint_small x h]; simp
    · rw [uvarint_large x h]
      have hdiv : x / 128 < 128 ^ (n + 1) := by
        rw [Nat.div_lt_iff_lt_mul (by decide)]
        rw [pow_succ] at hx
        exact hx
      have := ih (x / 128) hdiv
      simp only [List.length_cons]
      omega

/-- The bound on the loop is never met on a `uint64`: with a buffer of
`MaxVarintLen64` bytes or more `PutUvarint` returns, having written the LEB128
bytes of the value. -/
theorem PutUvarint_uint64 (buf : List Nat) (x : Nat) (hx : x < 2 ^ 64)
    (hb : MaxVarintLen64 ≤ buf.length) :
    ∃ buf1, PutUvarint buf x = some (buf1, (uvarint x).length) ∧
      buf1.take (uvarint x).length = uvarint x := by
  have hl : (uvarint x).length ≤ 10 :=
    uvarint_length_le 9 x (lt_trans hx (by norm_num))
  simp only [MaxVarintLen64] at hb
  obtain ⟨buf1, h1, _, h3⟩ := putUvarintLoop_spec MaxVarintLen64 buf x 0
    (by simp only [MaxVarintLen64]; omega) (by omega)
  refine ⟨buf1, ?_, ?_⟩
  · simpa [PutUvarint] using h1
  · simpa using h3

theorem groups7_bounds (x : Nat) : 1 ≤ groups7 x ∧ groups7 x ≤ 5 := by
  unfold groups7
  split_ifs <;> omega

/-- On a fresh five-byte scratch buffer `PutUvarint` does not panic when the
value needs at most five groups: it returns their number and has written the
LEB128 bytes at the front of the buffer. -/
theorem PutUvarint_scratch (x : Nat) (h : (uvarint x).length ≤ 5) :
    ∃ buf1, PutUvarint (List.replicate MaxVarintLen32 0) x = some (buf1, (uvarint x).length) ∧
      buf1.take (uvarint x).length = uvarint x := by
  obtain ⟨buf1, h1, _, h3⟩ := putUvarintLoop_spec MaxVarintLen64
    (List.replicate MaxVarintLen32 0) x 0 (by simp only [MaxVarintLen64]; omega)
    (by simp [MaxVarintLen32]; omega)
  refine ⟨buf1, ?_, ?_⟩
  · simpa [PutUvarint] using h1
  · simpa using h3

/-- The record `makeStartSection` builds for a 32-bit index. -/
theorem makeStartSection_eq (Start i : Nat) (h : i < 2 ^ 32) :
    makeStartSection Start i = some (Start % 256 :: groups7 i :: uvarint i) := by
  have hl := uvarint_length i h
  have hb := groups7_bounds i
  have hi : i % 2 ^ 64 = i := Nat.mod_eq_of_lt (lt_trans h (by norm_num))
  have hg : groups7 i % 2 ^ 64 = groups7 i := Nat.mod_eq_of_lt (by
    have : (5 : Nat) < 2 ^ 64 := by norm_num
    omega)
  obtain ⟨b1, p1, t1⟩ := PutUvarint_scratch i (by omega)
  have hs : uvarint (groups7 i) = [groups7 i] := uvarint_small _ (by omega)
  obtain ⟨b2, p2, t2⟩ := PutUvarint_scratch (groups7 i) (by rw [hs]; simp)
  rw [hl] at p1 t1
  rw [hs] at p2 t2
  simp only [List.length_singleton] at p2 t2
  simp only [makeStartSection, hi, p1, hg, p2, t1, t2]
  simp

theorem readUvarint_uvarint (x : Nat) : ∀ rest : List Nat,
    readUvarint (uvarint x ++ rest) = some (x, rest) := by
  induction x using Nat.strong_induction_on with
  | _ x ih =>
    intro rest
    by_cases hx : x < 128
    · rw [uvarint_small x hx]
      simp [readUvarint, hx]
    · rw [uvarint_large x hx]
      have hb : ¬ x % 128 + 128 < 128 := by omega
      simp only [List.cons_append, readUvarint, hb, if_false, List.append_eq,
        ih (x / 128) (by omega) rest]
      have e : (x % 128 + 128) % 128 + 128 * (x / 128) = x := by omega
      rw [e]

/-! ## Lemmas about `main2` -/

/-- The test of line 52 of `main.go` is the rejection the specification words. -/
theorem inconsistent_iff (fl : Flags) :
    (((fl.output != "") != ((fl.set != "") || fl.unset || fl.unexport))
      || (fl.set != "" && fl.unset)) = true ↔ inconsistent fl := by
  unfold inconsistent
  by_cases ho : fl.output = "" <;> by_cases hs : fl.set = "" <;>
    cases hu : fl.unset <;> cases hx : fl.unexport <;> simp [ho, hs, bne]

theorem splice_keep (env : Env) (sections : Map) (record data : List Nat) (p : Nat)
    (h : (sections.Sections env.Start).Offset ≤ data.length) :
    splice env sections false record ⟨data, p⟩ =
      (data.take (sections.Sections env.Start).Offset ++ record ++
        data.drop ((sections.Sections env.Start).Offset + (sections.Sections env.Start).Length),
        none) := by
  simp [splice, CopyN, Copy, File.SeekStart, File.SeekCurrent, Nat.min_eq_left h]

theorem splice_unexport (env : Env) (sections : Map) (record data : List Nat) (p : Nat)
    (h : (sections.Sections env.Export).Offset ≤ data.length) :
    splice env sections true record ⟨data, p⟩ =
      (data.take (sections.Sections env.Export).Offset ++ record ++
        data.drop ((sections.Sections env.Export).Offset +
          (sections.Sections env.Export).Length + (sections.Sections env.Start).Length),
        none) := by
  simp [splice, CopyN, Copy, File.SeekStart, File.SeekCurrent, Nat.min_eq_left h]

theorem code_test_false (fl : Flags) (hcons : ¬ inconsistent fl) :
    (((fl.output != "") != ((fl.set != "") || fl.unset || fl.unexport))
      || (fl.set != "" && fl.unset)) = false := by
  have hc := (inconsistent_iff fl).not.mpr hcons
  simpa only [Bool.not_eq_true] using hc

theorem main2_usage (env : Env) (fl : Flags) (hargs : fl.args.length ≠ 1) :
    main2 env fl = ⟨.exit 2, [], [Diag.usage], false, false, []⟩ := by
  simp only [main2]
  rw [if_pos hargs]

theorem main2_inconsistent (env : Env) (fl : Flags) (hargs : fl.args.length = 1)
    (hinc : inconsistent fl) :
    main2 env fl =
      ⟨.exit 2, [], [Diag.text "Inconsistent options\n"], false, false, []⟩ := by
  have hc := (inconsistent_iff fl).mpr hinc
  simp only [main2, hargs, hc]
  simp

theorem main2_open_error (env : Env) (fl : Flags) (e : String) (hargs : fl.args.length = 1)
    (hcons : ¬ inconsistent fl) (hopen : env.Open (fl.args.headD "") = .error e) :
    main2 env fl = ⟨.ret (some (.underlying e)), [], [], false, false, []⟩ := by
  simp only [main2, hargs, code_test_false fl hcons, hopen]
  simp

theorem main2_load_error (env : Env) (fl : Flags) (data : List Nat) (e : String)
    (hargs : fl.args.length = 1) (hcons : ¬ inconsistent fl)
    (hopen : env.Open (fl.args.headD "") = .ok data)
    (hload : env.LoadInitialSections data = .error e) :
    main2 env fl = ⟨.ret (some (.underlying e)), [], [], true, false, []⟩ := by
  simp only [main2, hargs, code_test_false fl hcons, hopen, hload]
  simp

theorem main2_report_eq (env : Env) (fl : Flags) (data : List Nat) (m : Module)
    (sections : Map) (hargs : fl.args.length = 1) (hcons : ¬ inconsistent fl)
    (hout : fl.output = "") (hopen : env.Open (fl.args.headD "") = .ok data)
    (hload : env.LoadInitialSections data = .ok (m, sections)) :
    main2 env fl =
      ⟨.ret none,
        [if m.StartFunc.2 = true then
            fl.args.headD "" ++ ": start function index: " ++ toString m.StartFunc.1 ++ "\n"
          else fl.args.headD "" ++ ": start function not defined\n"],
        [], true, false, []⟩ := by
  have ho : (fl.output == "") = true := by simp [hout]
  obtain ⟨⟨index, defined⟩, exportFunc⟩ := m
  simp only [main2, hargs, code_test_false fl hcons, hopen, hload, ho]
  cases defined <;> simp

theorem main2_record_error (env : Env) (fl : Flags) (data : List Nat) (m : Module)
    (sections : Map) (t : Termination) (hargs : fl.args.length = 1)
    (hcons : ¬ inconsistent fl) (hout : fl.output ≠ "")
    (hopen : env.Open (fl.args.headD "") = .ok data)
    (hload : env.LoadInitialSections data = .ok (m, sections))
    (hrec : startSectionOf env m (fl.args.headD "") fl.set = .error t) :
    main2 env fl = ⟨t, [], [], true, false, []⟩ := by
  have ho : (fl.output == "") = false := by simpa using hout
  simp only [main2, hargs, code_test_false fl hcons, hopen, hload, ho, hrec]
  simp

theorem main2_create_error (env : Env) (fl : Flags) (data : List Nat) (m : Module)
    (sections : Map) (record : List Nat) (e : String) (hargs : fl.args.length = 1)
    (hcons : ¬ inconsistent fl) (hout : fl.output ≠ "")
    (hopen : env.Open (fl.args.headD "") = .ok data)
    (hload : env.LoadInitialSections data = .ok (m, sections))
    (hrec : startSectionOf env m (fl.args.headD "") fl.set = .ok record)
    (hcreate : env.Create fl.output = some e) :
    main2 env fl = ⟨.ret (some (.underlying e)), [], [], true, false, []⟩ := by
  have ho : (fl.output == "") = false := by simpa using hout
  simp only [main2, hargs, code_test_false fl hcons, hopen, hload, ho, hrec, hcreate]
  simp

/-- A failure of lines 85-99 is a returned error or a panic, never `os.Exit`. -/
theorem startSectionOf_error (env : Env) (m : Module) (input set : String) (t : Termination)
    (h : startSectionOf env m input set = .error t) : ∀ code, t ≠ .exit code := by
  intro code
  simp only [startSectionOf] at h
  split at h
  · split at h
    · cases h; simp
    · split at h
      · cases h; simp
      · split at h
        · cases h; simp
        · cases h
  · cases h

/-- Without `-s` the replacement record is empty. -/
theorem startSectionOf_unset (env : Env) (m : Module) (input : String) :
    startSectionOf env m input "" = .ok [] := by
  simp [startSectionOf]

/-- With `-s name`, for an exported function with the niladic, no-result
signature and a 32-bit index, the replacement record is the encoded record. -/
theorem startSectionOf_niladic (env : Env) (m : Module) (input set : String) (index : Nat)
    (hset : set ≠ "") (hexp : m.ExportFunc set = (index, FuncType.zero, true))
    (hidx : index < 2 ^ 32) :
    startSectionOf env m input set =
      .ok (env.Start % 256 :: groups7 index :: uvarint index) := by
  have hs : (set != "") = true := by simpa using hset
  simp [startSectionOf, hs, hexp, FuncType.Equal, makeStartSection_eq env.Start index hidx]

/-- With `-s name`, for an exported function with any other signature, lines
93-96 return the error naming the function and its signature. -/
theorem startSectionOf_unsuitable (env : Env) (m : Module) (input set : String) (index : Nat)
    (sig : FuncType) (hset : set ≠ "") (hexp : m.ExportFunc set = (index, sig, true))
    (hsig : sig ≠ FuncType.zero) :
    startSectionOf env m input set = .error (.ret (some (.unsuitableType input set sig))) := by
  have hs : (set != "") = true := by simpa using hset
  simp [startSectionOf, hs, hexp, FuncType.Equal, hsig]

/-- The write path of `main2`: with accepted options, an output path, an
input that opens and loads, a replacement record and an output file that can
be created, the run is the splice. -/
theorem main2_write (env : Env) (fl : Flags) (data : List Nat) (m : Module) (sections : Map)
    (record : List Nat) (hargs : fl.args.length = 1) (hcons : ¬ inconsistent fl)
    (hout : fl.output ≠ "") (hopen : env.Open (fl.args.headD "") = .ok data)
    (hload : env.LoadInitialSections data = .ok (m, sections))
    (hrec : startSectionOf env m (fl.args.headD "") fl.set = .ok record)
    (hcreate : env.Create fl.output = none) :
    main2 env fl =
      ⟨.ret (splice env sections fl.unexport record ⟨data, 0⟩).2, [], [], true, true,
        (splice env sections fl.unexport record ⟨data, 0⟩).1⟩ := by
  have ho : (fl.output == "") = false := by simpa using hout
  simp only [main2, hargs, code_test_false fl hcons, hopen, hload, ho, hrec, hcreate]
  simp

/-! ## Lemmas about the bytes outside the dropped ranges -/

theorem keep_congr (p q : Nat → Bool) (h : ∀ k, p k = q k) :
    ∀ (l : List Nat) (k : Nat), keep p k l = keep q k l := by
  intro l
  induction l with
  | nil => intro k; rfl
  | cons b t ih => intro k; simp only [keep, h k, ih (k + 1)]

theorem keep_range (lo hi : Nat) (hle : lo ≤ hi) :
    ∀ (l : List Nat) (k : Nat),
      keep (fun j => decide (lo ≤ j ∧ j < hi)) k l = l.take (lo - k) ++ l.drop (hi - k) := by
  intro l
  induction l with
  | nil => intro k; simp [keep]
  | cons b t ih =>
    intro k
    simp only [keep, ih (k + 1)]
    by_cases h1 : lo ≤ k ∧ k < hi
    · have e1 : lo - k = 0 := by omega
      have e2 : lo - (k + 1) = 0 := by omega
      have e3 : hi - k = (hi - (k + 1)) + 1 := by omega
      rw [e1, e3, e2]
      simp [h1]
    · by_cases h2 : k < lo
      · have e1 : lo - k = (lo - (k + 1)) + 1 := by omega
        have e3 : hi - k = (hi - (k + 1)) + 1 := by omega
        rw [e1, e3]
        simp [h1]
      · have e1 : lo - k = 0 := by omega
        have e2 : lo - (k + 1) = 0 := by omega
        have e3 : hi - k = 0 := by omega
        have e4 : hi - (k + 1) = 0 := by omega
        rw [e1, e3, e2, e4]
        simp [h1]

/-- Two ranges whose union is the range `[lo, hi)` leave the bytes before
`lo` and the bytes from `hi` on. -/
theorem outside_eq (input : List Nat) (a la b lb lo hi : Nat) (hle : lo ≤ hi)
    (h : ∀ k, ((a ≤ k ∧ k < a + la) ∨ (b ≤ k ∧ k < b + lb)) ↔ (lo ≤ k ∧ k < hi)) :
    outside input a la b lb = input.take lo ++ input.drop hi := by
  unfold outside
  rw [keep_congr _ (fun j => decide (lo ≤ j ∧ j < hi)) _ input 0, keep_range lo hi hle input 0]
  · simp
  · intro k
    by_cases hk : lo ≤ k ∧ k < hi
    · have := (h k).mpr hk
      rcases this with h1 | h1 <;> simp [h1, hk]
    · have := (h k).not.mpr hk
      simp only [not_or] at this
      simp [this.1, this.2, hk]

/-! ## The encoder claims -/

/-- C1: for every 32-bit function index `i`, `makeStartSection i` returns
exactly the tag byte of `section.Start`, then the unsigned LEB128 of `n`, then
the unsigned LEB128 of `i`, where the payload length `n` is the number of
bytes of the unsigned LEB128 of `i`. -/
theorem makeStartSection_layout (Start i : Nat) (h : i < 2 ^ 32) :
    makeStartSection Start i =
      some ([Start % 256] ++ uvarint (uvarint i).length ++ uvarint i) := by
  have hb := groups7_bounds i
  rw [makeStartSection_eq Start i h, uvarint_length i h, uvarint_small (groups7 i) (by omega)]
  rfl

theorem makeStartSection_layout_witness :
    (300 : Nat) < 2 ^ 32 ∧
    makeStartSection 8 300 = some ([8 % 256] ++ uvarint (uvarint 300).length ++ uvarint 300) ∧
    makeStartSection 8 300 = some [8, 2, 172, 2] :=
  ⟨by decide, makeStartSection_layout 8 300 (by decide), by decide⟩

/-- C2: round trip.  For every 32-bit function index `i`, reading the record
`makeStartSection i` as a section (the tag byte, the payload length, the
payload as one unsigned LEB128 integer) gives back the tag and `i`, and the
integer takes the whole payload: no byte of the payload and no byte of the
record is left over. -/
theorem makeStartSection_roundtrip (Start i : Nat) (h : i < 2 ^ 32) :
    ∃ record, makeStartSection Start i = some record ∧
      parseSection record = some ⟨Start % 256, (uvarint i).length, i, [], []⟩ := by
  have hb := groups7_bounds i
  have hl := uvarint_length i h
  refine ⟨_, makeStartSection_eq Start i h, ?_⟩
  have h1 : readUvarint (groups7 i :: uvarint i) = some (groups7 i, uvarint i) := by
    have hlt : groups7 i < 128 := by omega
    simp [readUvarint, hlt]
  have h2 : readUvarint (uvarint i) = some (i, []) := by
    simpa using readUvarint_uvarint i []
  have h3 : List.take (groups7 i) (uvarint i) = uvarint i := by
    rw [← hl]; exact List.take_length _
  have h4 : List.drop (groups7 i) (uvarint i) = [] := by
    rw [← hl]; exact List.drop_length _
  simp [parseSection, h1, hl, h2, h3, h4]

theorem makeStartSection_roundtrip_witness :
    (300 : Nat) < 2 ^ 32 ∧
    ∃ record, makeStartSection 8 300 = some record ∧
      parseSection record = some ⟨8 % 256, (uvarint 300).length, 300, [], []⟩ :=
  ⟨by decide, makeStartSection_roundtrip 8 300 (by decide)⟩

/-- C10: for every 32-bit function index `i` neither five-byte scratch buffer
is indexed out of range (both `PutUvarint` calls and `makeStartSection`
return), and the record is the tag byte, one payload length byte `n` and `n`
payload bytes, where `n` has its continuation bit clear (`n < 128`), lies
between 1 and 5, and is the number of groups of seven bits `i` needs (1 below
`2^7`, 2 below `2^14`, 3 below `2^21`, 4 below `2^28`, 5 otherwise); so the
record has `2 + n` bytes, between 3 and 7. -/
theorem makeStartSection_size (Start i : Nat) (h : i < 2 ^ 32) :
    ∃ n payload record,
      (PutUvarint (List.replicate MaxVarintLen32 0) (i % 2 ^ 64)).isSome = true ∧
      (PutUvarint (List.replicate MaxVarintLen32 0) (n % 2 ^ 64)).isSome = true ∧
      makeStartSection Start i = some record ∧
      record = Start % 256 :: n :: payload ∧ payload.length = n ∧
      n < 128 ∧ 1 ≤ n ∧ n ≤ 5 ∧
      n = (if i < 2 ^ 7 then 1 else if i < 2 ^ 14 then 2 else if i < 2 ^ 21 then 3
        else if i < 2 ^ 28 then 4 else 5) ∧
      record.length = 2 + n ∧ 3 ≤ record.length ∧ record.length ≤ 7 := by
  have hb := groups7_bounds i
  have hl := uvarint_length i h
  have hi : i % 2 ^ 64 = i := Nat.mod_eq_of_lt (lt_trans h (by norm_num))
  have hg : groups7 i % 2 ^ 64 = groups7 i := Nat.mod_eq_of_lt (by
    have : (5 : Nat) < 2 ^ 64 := by norm_num
    omega)
  obtain ⟨b1, p1, _⟩ := PutUvarint_scratch i (by omega)
  have hs : uvarint (groups7 i) = [groups7 i] := uvarint_small _ (by omega)
  obtain ⟨b2, p2, _⟩ := PutUvarint_scratch (groups7 i) (by rw [hs]; simp)
  refine ⟨groups7 i, uvarint i, _, ?_, ?_, makeStartSection_eq Start i h, rfl, hl, by omega,
    hb.1, hb.2, rfl, ?_, ?_, ?_⟩
  · rw [hi, p1]; rfl
  · rw [hg, p2]; rfl
  · simp only [List.length_cons, hl]; omega
  · simp only [List.length_cons, hl]; omega
  · simp only [List.length_cons, hl]; omega

theorem makeStartSection_size_witness :
    (2 ^ 32 - 1 : Nat) < 2 ^ 32 ∧
    makeStartSection 8 (2 ^ 32 - 1) = some [8, 5, 255, 255, 255, 255, 15] ∧
    ∃ n payload record,
      (PutUvarint (List.replicate MaxVarintLen32 0) ((2 ^ 32 - 1) % 2 ^ 64)).isSome = true ∧
      (PutUvarint (List.replicate MaxVarintLen32 0) (n % 2 ^ 64)).isSome = true ∧
      makeStartSection 8 (2 ^ 32 - 1) = some record ∧
      record = 8 % 256 :: n :: payload ∧ payload.length = n ∧
      n < 128 ∧ 1 ≤ n ∧ n ≤ 5 ∧
      n = (if 2 ^ 32 - 1 < 2 ^ 7 then 1 else if 2 ^ 32 - 1 < 2 ^ 14 then 2
        else if 2 ^ 32 - 1 < 2 ^ 21 then 3 else if 2 ^ 32 - 1 < 2 ^ 28 then 4 else 5) ∧
      record.length = 2 + n ∧ 3 ≤ record.length ∧ record.length ≤ 7 :=
  ⟨by decide, by decide, makeStartSection_size 8 (2 ^ 32 - 1) (by decide)⟩

/-! ## The claims about `main2` -/

/-- C5: option validation.  With exactly one positional argument, `main2`
ends in `os.Exit(2)` if and only if the options are inconsistent (the output
flag without any of set, unset, unexport; any of those without the output
flag; or set together with unset), and then it has printed
`Inconsistent options`, the exit code is 2, and nothing was opened, created or
written.  Consequently a run with both `-s x` and `-u` exits with code 2
whatever the other flags and arguments are. -/
theorem main2_option_validation (env : Env) (fl : Flags) :
    (fl.args.length = 1 →
      ((main2 env fl).term = .exit 2 ↔ inconsistent fl) ∧
      (inconsistent fl →
        main2 env fl =
          ⟨.exit 2, [], [Diag.text "Inconsistent options\n"], false, false, []⟩ ∧
        (main2 env fl).exitCode = 2)) ∧
    (fl.set ≠ "" → fl.unset = true →
      (main2 env fl).term = .exit 2 ∧ (main2 env fl).exitCode = 2 ∧
      (main2 env fl).opened = false ∧ (main2 env fl).created = false ∧
      (main2 env fl).out = []) := by
  have nokey : fl.args.length = 1 → ¬ inconsistent fl → (main2 env fl).term ≠ .exit 2 := by
    intro hargs hcons
    cases hopen : env.Open (fl.args.headD "") with
    | error e => rw [main2_open_error env fl e hargs hcons hopen]; simp
    | ok data =>
      cases hload : env.LoadInitialSections data with
      | error e => rw [main2_load_error env fl data e hargs hcons hopen hload]; simp
      | ok r =>
        obtain ⟨m, sections⟩ := r
        by_cases hout : fl.output = ""
        · rw [main2_report_eq env fl data m sections hargs hcons hout hopen hload]; simp
        · cases hrec : startSectionOf env m (fl.args.headD "") fl.set with
          | error t =>
            rw [main2_record_error env fl data m sections t hargs hcons hout hopen hload hrec]
            exact startSectionOf_error env m _ _ t hrec 2
          | ok record =>
            cases hcreate : env.Create fl.output with
            | some e =>
              rw [main2_create_error env fl data m sections record e hargs hcons hout hopen
                hload hrec hcreate]
              simp
            | none =>
              rw [main2_write env fl data m sections record hargs hcons hout hopen hload hrec
                hcreate]
              simp
  refine ⟨fun hargs => ⟨⟨fun h => ?_, fun h => ?_⟩, fun h => ⟨main2_inconsistent env fl hargs h, ?_⟩⟩,
    fun hs hu => ?_⟩
  · by_contra hcons
    exact nokey hargs hcons h
  · rw [main2_inconsistent env fl hargs h]
  · rw [main2_inconsistent env fl hargs h]; rfl
  · by_cases hargs : fl.args.length = 1
    · have hinc : inconsistent fl := Or.inr (Or.inr ⟨hs, hu⟩)
      rw [main2_inconsistent env fl hargs hinc]
      exact ⟨rfl, rfl, rfl, rfl, rfl⟩
    · rw [main2_usage env fl hargs]
      exact ⟨rfl, rfl, rfl, rfl, rfl⟩

theorem main2_option_validation_witness :
    (main2 tightEnv ⟨"out", "foo", true, true, ["in"]⟩).term = .exit 2 ∧
    (main2 tightEnv ⟨"out", "foo", true, true, ["in"]⟩).exitCode = 2 ∧
    (main2 tightEnv ⟨"out", "foo", true, true, ["in"]⟩).opened = false ∧
    (main2 tightEnv ⟨"out", "foo", true, true, ["in"]⟩).created = false ∧
    (main2 tightEnv ⟨"out", "foo", true, true, ["in"]⟩).out = [] :=
  (main2_option_validation tightEnv ⟨"out", "foo", true, true, ["in"]⟩).2 (by decide) rfl

/-- C7: report mode.  For every accepted invocation with no output path,
`main2` creates no file and writes no byte; when the input opens and loads it
prints the input filename with the start function index `k` if `StartFunc`
reports `(k, true)` and `start function not defined` otherwise, and returns
without error (exit code 0). -/
theorem main2_report (env : Env) (fl : Flags) (hargs : fl.args.length = 1)
    (hcons : ¬ inconsistent fl) (hout : fl.output = "") :
    (main2 env fl).created = false ∧ (main2 env fl).out = [] ∧
    ∀ data m sections, env.Open (fl.args.headD "") = .ok data →
      env.LoadInitialSections data = .ok (m, sections) →
      (main2 env fl).term = .ret none ∧ (main2 env fl).exitCode = 0 ∧
      (∀ k, m.StartFunc = (k, true) → (main2 env fl).stdout =
        [fl.args.headD "" ++ ": start function index: " ++ toString k ++ "\n"]) ∧
      (m.StartFunc.2 = false → (main2 env fl).stdout =
        [fl.args.headD "" ++ ": start function not defined\n"]) := by
  have frame : (main2 env fl).created = false ∧ (main2 env fl).out = [] := by
    cases hopen : env.Open (fl.args.headD "") with
    | error e => rw [main2_open_error env fl e hargs hcons hopen]; exact ⟨rfl, rfl⟩
    | ok data =>
      cases hload : env.LoadInitialSections data with
      | error e => rw [main2_load_error env fl data e hargs hcons hopen hload]; exact ⟨rfl, rfl⟩
      | ok r =>
        obtain ⟨m, sections⟩ := r
        rw [main2_report_eq env fl data m sections hargs hcons hout hopen hload]
        exact ⟨rfl, rfl⟩
  refine ⟨frame.1, frame.2, ?_⟩
  intro data m sections hopen hload
  rw [main2_report_eq env fl data m sections hargs hcons hout hopen hload]
  refine ⟨rfl, rfl, ?_, ?_⟩
  · intro k hk
    simp [hk]
  · intro hk
    simp [hk]

theorem main2_report_witness :
    (main2 tightEnv ⟨"", "", false, false, ["in"]⟩).stdout =
      ["in: start function index: 300\n"] ∧
    (main2 gapEnv ⟨"", "", false, false, ["in"]⟩).stdout =
      ["in: start function not defined\n"] ∧
    (main2 tightEnv ⟨"", "", false, false, ["in"]⟩).created = false ∧
    (main2 tightEnv ⟨"", "", false, false, ["in"]⟩).out = [] :=
  ⟨by decide, by decide,
    (main2_report tightEnv ⟨"", "", false, false, ["in"]⟩ rfl (by decide) rfl).1,
    (main2_report tightEnv ⟨"", "", false, false, ["in"]⟩ rfl (by decide) rfl).2.1⟩

/-- C6: signature check.  For every module and every name given with `-s`
that the module exports as a function (with a 32-bit index), in an accepted
run whose input opens and loads: if the signature is not the niladic,
no-result function type, `main2` returns the error naming the function and its
signature, the exit code is 1, and the output file is neither created nor
written; if it is, `main2` goes on to create the output file and splice the
encoded record into it.  So the output file is created if and only if the
signature is the niladic, no-result type (and the file can be created). -/
theorem main2_signature_check (env : Env) (fl : Flags) (data : List Nat) (m : Module)
    (sections : Map) (index : Nat) (sig : FuncType) (hargs : fl.args.length = 1)
    (hcons : ¬ inconsistent fl) (hset : fl.set ≠ "")
    (hopen : env.Open (fl.args.headD "") = .ok data)
    (hload : env.LoadInitialSections data = .ok (m, sections))
    (hexp : m.ExportFunc fl.set = (index, sig, true)) (hidx : index < 2 ^ 32) :
    (sig.Equal FuncType.zero = false →
      main2 env fl =
        ⟨.ret (some (.unsuitableType (fl.args.headD "") fl.set sig)), [], [], true, false, []⟩ ∧
      (main2 env fl).exitCode = 1 ∧ (main2 env fl).created = false ∧
      (main2 env fl).out = []) ∧
    (sig.Equal FuncType.zero = true → env.Create fl.output = none →
      main2 env fl =
        ⟨.ret (splice env sections fl.unexport
            (env.Start % 256 :: groups7 index :: uvarint index) ⟨data, 0⟩).2,
          [], [], true, true,
          (splice env sections fl.unexport
            (env.Start % 256 :: groups7 index :: uvarint index) ⟨data, 0⟩).1⟩) ∧
    ((main2 env fl).created = true ↔
      (sig.Equal FuncType.zero = true ∧ env.Create fl.output = none)) := by
  have hout : fl.output ≠ "" := by
    intro ho
    exact hcons (Or.inr (Or.inl ⟨Or.inl hset, ho⟩))
  have bad : sig.Equal FuncType.zero = false →
      main2 env fl =
        ⟨.ret (some (.unsuitableType (fl.args.headD "") fl.set sig)), [], [], true, false, []⟩ := by
    intro hsig
    have hne : sig ≠ FuncType.zero := by simpa [FuncType.Equal] using hsig
    exact main2_record_error env fl data m sections _ hargs hcons hout hopen hload
      (startSectionOf_unsuitable env m _ fl.set index sig hset hexp hne)
  have good : sig.Equal FuncType.zero = true →
      startSectionOf env m (fl.args.headD "") fl.set =
        .ok (env.Start % 256 :: groups7 index :: uvarint index) := by
    intro hsig
    have he : sig = FuncType.zero := by simpa [FuncType.Equal] using hsig
    rw [he] at hexp
    exact startSectionOf_niladic env m _ fl.set index hset hexp hidx
  refine ⟨fun hsig => ?_, fun hsig hcreate => ?_, ?_⟩
  · rw [bad hsig]
    exact ⟨rfl, rfl, rfl, rfl⟩
  · exact main2_write env fl data m sections _ hargs hcons hout hopen hload (good hsig) hcreate
  · cases hsig : sig.Equal FuncType.zero with
    | false =>
      rw [bad hsig]
      simp
    | true =>
      cases hcreate : env.Create fl.output with
      | some e =>
        rw [main2_create_error env fl data m sections _ e hargs hcons hout hopen hload
          (good hsig) hcreate]
        simp
      | none =>
        rw [main2_write env fl data m sections _ hargs hcons hout hopen hload (good hsig)
          hcreate]
        simp

theorem main2_signature_check_witness :
    (main2 exampleEnv ⟨"out", "bar", false, false, ["in"]⟩ =
        ⟨.ret (some (.unsuitableType "in" "bar" ⟨[127], 0⟩)), [], [], true, false, []⟩ ∧
      (main2 exampleEnv ⟨"out", "bar", false, false, ["in"]⟩).exitCode = 1 ∧
      (main2 exampleEnv ⟨"out", "bar", false, false, ["in"]⟩).created = false ∧
      (main2 exampleEnv ⟨"out", "bar", false, false, ["in"]⟩).out = []) ∧
    (main2 exampleEnv ⟨"out", "foo", false, false, ["in"]⟩).created = true :=
  ⟨(main2_signature_check exampleEnv ⟨"out", "bar", false, false, ["in"]⟩ (List.range 64)
      ⟨(0, false), fun name =>
        if name = "foo" then (0, ⟨[], 0⟩, true)
        else if name = "bar" then (1, ⟨[127], 0⟩, true) else (0, ⟨[], 0⟩, false)⟩
      ⟨fun k => if k = 7 then ⟨50, 10⟩ else ⟨60, 0⟩⟩ 1 ⟨[127], 0⟩
      rfl (by decide) (by decide) rfl rfl rfl (by decide)).1 (by decide),
    by decide⟩

/-- C4: the worked example and its general form.  In an accepted write-mode
run without `-x` whose input opens and loads, whose replacement record is
`record` and whose output file can be created, with the Start offset `so`
inside the input, `main2` returns without error and the output is
`input[0:so] ++ record ++ input[so+sl:]`.  In particular, when `-s foo` names a
niladic function with index 0, the Export section is at offset 50 with length
10 and the Start section is absent (offset 60, length 0), the output is
`input[0:60] ++ [StartTag, 0x01, 0x00] ++ input[60:]` and its length is the
input length plus 3. -/
theorem main2_set_start (env : Env) (fl : Flags) (data : List Nat) (m : Module)
    (sections : Map) (record : List Nat) (hargs : fl.args.length = 1)
    (hcons : ¬ inconsistent fl) (hout : fl.output ≠ "") (hx : fl.unexport = false)
    (hopen : env.Open (fl.args.headD "") = .ok data)
    (hload : env.LoadInitialSections data = .ok (m, sections))
    (hrec : startSectionOf env m (fl.args.headD "") fl.set = .ok record)
    (hcreate : env.Create fl.output = none)
    (hso : (sections.Sections env.Start).Offset ≤ data.length) :
    (main2 env fl).term = .ret none ∧
    (main2 env fl).out =
      data.take (sections.Sections env.Start).Offset ++ record ++
        data.drop ((sections.Sections env.Start).Offset + (sections.Sections env.Start).Length) ∧
    (fl.set = "foo" → m.ExportFunc "foo" = (0, FuncType.zero, true) →
      sections.Sections env.Export = ⟨50, 10⟩ → sections.Sections env.Start = ⟨60, 0⟩ →
      (main2 env fl).out = data.take 60 ++ [env.Start % 256, 0x01, 0x00] ++ data.drop 60 ∧
      (main2 env fl).out.length = data.length + 3) := by
  have hm := main2_write env fl data m sections record hargs hcons hout hopen hload hrec hcreate
  rw [hx, splice_keep env sections record data 0 hso] at hm
  rw [hm]
  refine ⟨rfl, rfl, ?_⟩
  intro hfoo hexp _ hst
  have hr := startSectionOf_niladic env m (fl.args.headD "") "foo" 0 (by decide) hexp
    (by norm_num)
  rw [hfoo, hr] at hrec
  have hrecord : record = [env.Start % 256, 1, 0] := by
    have h0 : uvarint 0 = [0] := uvarint_small 0 (by decide)
    have hg : groups7 0 = 1 := by decide
    rw [h0, hg] at hrec
    injection hrec with hrec
    exact hrec.symm
  rw [hst] at hso
  simp only at hso
  simp only [hst, hrecord, Nat.add_zero]
  refine ⟨by trivial, ?_⟩
  simp only [List.length_append, List.length_take, List.length_drop, List.length_cons,
    List.length_nil]
  omega

theorem main2_set_start_witness :
    (main2 exampleEnv ⟨"out", "foo", false, false, ["in"]⟩).term = .ret none ∧
    (main2 exampleEnv ⟨"out", "foo", false, false, ["in"]⟩).out =
      (List.range 64).take 60 ++ [8 % 256, 0x01, 0x00] ++ (List.range 64).drop 60 ∧
    (main2 exampleEnv ⟨"out", "foo", false, false, ["in"]⟩).out.length = 64 + 3 :=
  have h := main2_set_start exampleEnv ⟨"out", "foo", false, false, ["in"]⟩ (List.range 64)
    ⟨(0, false), fun name =>
      if name = "foo" then (0, ⟨[], 0⟩, true)
      else if name = "bar" then (1, ⟨[127], 0⟩, true) else (0, ⟨[], 0⟩, false)⟩
    ⟨fun k => if k = 7 then ⟨50, 10⟩ else ⟨60, 0⟩⟩ [8, 1, 0]
    rfl (by decide) (by decide) rfl rfl rfl rfl rfl (by decide)
  ⟨h.1, (h.2.2 rfl rfl rfl rfl).1, (h.2.2 rfl rfl rfl rfl).2⟩

/-- C9: unsetting writes an empty replacement.  For every accepted write-mode
run without `-s` (so with `-u`, `-x` or both) whose input opens and loads
and whose output file can be created, the replacement start record is zero
bytes; without `-x` the output is `input[0:so] ++ input[so+sl:]`, the run
returns without error when the Start offset lies inside the input, and when
the module has no start section (`sl = 0`) the output is the input, byte for
byte. -/
theorem main2_unset (env : Env) (fl : Flags) (data : List Nat) (m : Module)
    (sections : Map) (hargs : fl.args.length = 1) (hcons : ¬ inconsistent fl)
    (hout : fl.output ≠ "") (hset : fl.set = "")
    (hopen : env.Open (fl.args.headD "") = .ok data)
    (hload : env.LoadInitialSections data = .ok (m, sections))
    (hcreate : env.Create fl.output = none) :
    startSectionOf env m (fl.args.headD "") fl.set = .ok [] ∧
    (main2 env fl).out = (splice env sections fl.unexport [] ⟨data, 0⟩).1 ∧
    (fl.unexport = false →
      (main2 env fl).out =
        data.take (sections.Sections env.Start).Offset ++
          data.drop ((sections.Sections env.Start).Offset +
            (sections.Sections env.Start).Length) ∧
      ((sections.Sections env.Start).Offset ≤ data.length → (main2 env fl).term = .ret none) ∧
      ((sections.Sections env.Start).Length = 0 → (main2 env fl).out = data)) := by
  have hrec : startSectionOf env m (fl.args.headD "") fl.set = .ok [] := by
    rw [hset]; exact startSectionOf_unset env m _
  have hm := main2_write env fl data m sections [] hargs hcons hout hopen hload hrec hcreate
  refine ⟨hrec, by rw [hm], ?_⟩
  intro hx
  rw [hx] at hm
  have hform : (main2 env fl).out =
      data.take (sections.Sections env.Start).Offset ++
        data.drop ((sections.Sections env.Start).Offset +
          (sections.Sections env.Start).Length) := by
    by_cases hso : (sections.Sections env.Start).Offset ≤ data.length
    · rw [hm, splice_keep env sections [] data 0 hso]
      simp
    · have hlt : data.length < (sections.Sections env.Start).Offset := by omega
      have hne : ¬ (min (sections.Sections env.Start).Offset data.length =
          (sections.Sections env.Start).Offset) := by
        rw [Nat.min_eq_right (by omega)]; omega
      have hd : data.drop ((sections.Sections env.Start).Offset +
          (sections.Sections env.Start).Length) = [] := by
        apply List.drop_eq_nil_of_le; omega
      rw [hm, hd]
      simp [splice, CopyN, File.SeekStart, hne]
  refine ⟨hform, ?_, ?_⟩
  · intro hso
    rw [hm, splice_keep env sections [] data 0 hso]
  · intro hsl
    rw [hform, hsl]
    simp

theorem main2_unset_witness :
    (main2 tightEnv ⟨"out", "", true, false, ["in"]⟩).out = [0, 1, 2, 3, 4, 5, 8, 9] ∧
    (main2 tightEnv ⟨"out", "", true, false, ["in"]⟩).out =
      [0, 1, 2, 3, 4, 5, 6, 7, 8, 9].take 6 ++ [0, 1, 2, 3, 4, 5, 6, 7, 8, 9].drop (6 + 2) ∧
    (main2 exampleEnv ⟨"out", "", true, false, ["in"]⟩).out = List.range 64 :=
  ⟨by decide,
    ((main2_unset tightEnv ⟨"out", "", true, false, ["in"]⟩ [0, 1, 2, 3, 4, 5, 6, 7, 8, 9]
      ⟨(300, true), fun _ => (300, ⟨[], 0⟩, true)⟩
      ⟨fun k => if k = 7 then ⟨2, 4⟩ else ⟨6, 2⟩⟩
      rfl (by decide) (by decide) rfl rfl rfl rfl).2.2 rfl).1,
    by decide⟩

/-- C3, at the failing input.  The ten-byte input of `gapEnv` has its Export
section at bytes 2-3 and, after two bytes of another section, its Start
section at bytes 6-7, both inside the input.  The run `-o out -x` is accepted,
creates the output and returns without error, yet the splicing invariant
fails: the output `[0, 1, 6, 7, 8, 9]` has lost the bytes 4 and 5, which lie
outside both sections, and kept the Start section's bytes 6 and 7, while the
input outside both sections is `[0, 1, 4, 5, 8, 9]`. -/
theorem main2_splicing_gap :
    ¬ inconsistent ⟨"out", "", false, true, ["in"]⟩ ∧
    (main2 gapEnv ⟨"out", "", false, true, ["in"]⟩).term = .ret none ∧
    (main2 gapEnv ⟨"out", "", false, true, ["in"]⟩).created = true ∧
    (2 + 2 ≤ [0, 1, 2, 3, 4, 5, 6, 7, 8, 9].length ∧
      6 + 2 ≤ [0, 1, 2, 3, 4, 5, 6, 7, 8, 9].length) ∧
    (main2 gapEnv ⟨"out", "", false, true, ["in"]⟩).out = [0, 1, 6, 7, 8, 9] ∧
    outside [0, 1, 2, 3, 4, 5, 6, 7, 8, 9] 2 2 6 2 = [0, 1, 4, 5, 8, 9] ∧
    ¬ splicingInvariant [0, 1, 2, 3, 4, 5, 6, 7, 8, 9] ⟨2, 2⟩ ⟨6, 2⟩ true []
      (main2 gapEnv ⟨"out", "", false, true, ["in"]⟩).out := by
  have hout : (main2 gapEnv ⟨"out", "", false, true, ["in"]⟩).out = [0, 1, 6, 7, 8, 9] := by
    decide
  have hkeep : outside [0, 1, 2, 3, 4, 5, 6, 7, 8, 9] 2 2 6 2 = [0, 1, 4, 5, 8, 9] := by
    decide
  refine ⟨by decide, by decide, by decide, by decide, hout, hkeep, ?_⟩
  rw [hout]
  rintro ⟨_, pre, post, h1, h2⟩
  simp only [if_true, hkeep, List.append_nil] at h1 h2
  rw [← h1] at h2
  exact absurd h2 (by decide)

/-- The splicing invariant where the splicer is right.  In a write-mode run
that is accepted, whose input opens and loads, whose replacement record is
`record` and whose output file can be created, with the Export and Start
ranges inside the input and, when unexporting, the Start section absent
(length 0) or beginning exactly where the Export section ends: `main2` returns
without error, the output length is the input length less the lengths of the
dropped sections (Start, and Export when unexporting) plus the length of the
record, and the output with the record taken out is the input with the
dropped ranges taken out, byte for byte and in order.  Bytes lying between the
Export section and a Start section that is not empty are the one case left
out: there the run with `-x` breaks the invariant. -/
theorem main2_splicing_invariant (env : Env) (fl : Flags) (data : List Nat) (m : Module)
    (sections : Map) (record : List Nat) (hargs : fl.args.length = 1)
    (hcons : ¬ inconsistent fl) (hout : fl.output ≠ "")
    (hopen : env.Open (fl.args.headD "") = .ok data)
    (hload : env.LoadInitialSections data = .ok (m, sections))
    (hrec : startSectionOf env m (fl.args.headD "") fl.set = .ok record)
    (hcreate : env.Create fl.output = none)
    (he : (sections.Sections env.Export).Offset + (sections.Sections env.Export).Length
      ≤ data.length)
    (hs : (sections.Sections env.Start).Offset + (sections.Sections env.Start).Length
      ≤ data.length)
    (hadj : fl.unexport = true →
      (sections.Sections env.Start).Length = 0 ∨
      (sections.Sections env.Export).Offset + (sections.Sections env.Export).Length =
        (sections.Sections env.Start).Offset) :
    (main2 env fl).term = .ret none ∧ (main2 env fl).created = true ∧
    splicingInvariant data (sections.Sections env.Export) (sections.Sections env.Start)
      fl.unexport record (main2 env fl).out := by
  have hm := main2_write env fl data m sections record hargs hcons hout hopen hload hrec hcreate
  cases hx : fl.unexport with
  | false =>
    rw [hx, splice_keep env sections record data 0 (by omega)] at hm
    rw [hm]
    refine ⟨rfl, rfl, ?_⟩
    simp only [splicingInvariant, Bool.false_eq_true, if_false]
    generalize (sections.Sections env.Start).Offset = so at *
    generalize (sections.Sections env.Start).Length = sl at *
    generalize (sections.Sections env.Export).Offset = eo at *
    refine ⟨?_, data.take so, data.drop (so + sl), rfl, ?_⟩
    · simp only [List.length_append, List.length_take, List.length_drop]
      omega
    · rw [outside_eq data eo 0 so sl so (so + sl) (by omega) (by intro k; omega)]
  | true =>
    rw [hx, splice_unexport env sections record data 0 (by omega)] at hm
    rw [hm]
    refine ⟨rfl, rfl, ?_⟩
    have hadj := hadj hx
    simp only [splicingInvariant, if_true]
    generalize (sections.Sections env.Start).Offset = so at *
    generalize (sections.Sections env.Start).Length = sl at *
    generalize (sections.Sections env.Export).Offset = eo at *
    generalize (sections.Sections env.Export).Length = el at *
    refine ⟨?_, data.take eo, data.drop (eo + el + sl), rfl, ?_⟩
    · simp only [List.length_append, List.length_take, List.length_drop]
      rcases hadj with h | h <;> omega
    · rw [outside_eq data eo el so sl eo (eo + el + sl) (by omega)
        (by intro k; rcases hadj with h | h <;> omega)]

theorem main2_splicing_invariant_witness :
    (main2 tightEnv ⟨"out", "foo", false, true, ["in"]⟩).term = .ret none ∧
    (main2 tightEnv ⟨"out", "foo", false, true, ["in"]⟩).created = true ∧
    splicingInvariant [0, 1, 2, 3, 4, 5, 6, 7, 8, 9] ⟨2, 4⟩ ⟨6, 2⟩ true [8, 2, 172, 2]
      (main2 tightEnv ⟨"out", "foo", false, true, ["in"]⟩).out :=
  main2_splicing_invariant tightEnv ⟨"out", "foo", false, true, ["in"]⟩
    [0, 1, 2, 3, 4, 5, 6, 7, 8, 9]
    ⟨(300, true), fun _ => (300, ⟨[], 0⟩, true)⟩
    ⟨fun k => if k = 7 then ⟨2, 4⟩ else ⟨6, 2⟩⟩ [8, 2, 172, 2]
    rfl (by decide) (by decide) rfl rfl rfl rfl (by decide) (by decide)
    (fun _ => Or.inr (by decide))

/-- C8, at the failing input.  The ten-byte input of `gapEnv` has its Export
section at bytes 2-3 and, after two bytes of another section, its Start
section at bytes 6-7.  With `-o out -u -x` the run returns without error and
the output is `[0, 1, 6, 7, 8, 9]`: the two bytes skipped after the Export
section are the bytes 4 and 5, not the Start section, whose bytes 6 and 7 are
still in the output, while the input outside both sections is
`[0, 1, 4, 5, 8, 9]`.  Without `-x` the same input loses exactly its Start
section. -/
theorem main2_unexport_gap :
    ¬ inconsistent ⟨"out", "", true, true, ["in"]⟩ ∧
    (main2 gapEnv ⟨"out", "", true, true, ["in"]⟩).term = .ret none ∧
    (main2 gapEnv ⟨"out", "", true, true, ["in"]⟩).out = [0, 1, 6, 7, 8, 9] ∧
    outside [0, 1, 2, 3, 4, 5, 6, 7, 8, 9] 2 2 6 2 = [0, 1, 4, 5, 8, 9] ∧
    (main2 gapEnv ⟨"out", "", true, false, ["in"]⟩).out = [0, 1, 2, 3, 4, 5, 8, 9] := by
  refine ⟨by decide, by decide, by decide, by decide, by decide⟩

end WasmStart
